import Mathlib

/-!
Verification development for the Delsys EMG streaming/recording engine
(`delsys_handler.py` + `app.py`).  The Python source is shallowly embedded:
pure computations become Lean functions over `List ℚ` (Python floats are
modelled as exact rationals, since every claim under scrutiny is about
structure — lengths, ordering, branching — not rounding), stateful code
becomes explicit state passing, and fallible code returns `Option` or
carries explicit outcome flags.  The file is organised as definitions
first, then the theorems settling each claim.
-/

set_option maxRecDepth 8000

namespace Delsys

/-! ## OutputChannel: the bounded processed-data queue

`delsys_handler.py` line 49: `self.output_queue = queue.Queue(maxsize=1000)`.
`_process_raw_data` (lines 231-240) pushes with `put_nowait`; on `queue.Full`
it does `get_nowait()` (removing the oldest entry, since `queue.Queue` is
FIFO) and then `put_nowait` again.  The queue contents are modelled as a list
with the oldest entry at the head. -/

/-- One element of the output queue: the dict
`{'channel': ..., 'muscle_label': ..., 'samples': ...}` built in
`_process_raw_data` (lines 225-229). -/
structure ProcessedChunk where
  channel : ℕ
  muscle_label : String
  samples : List ℚ
deriving DecidableEq

/-- The push performed by `_process_raw_data` (lines 232-240): `put_nowait`,
and on a full queue `get_nowait()` (evicting the oldest element) followed by
`put_nowait`. -/
def try_push (q : List ProcessedChunk) (x : ProcessedChunk) : List ProcessedChunk :=
  if q.length < 1000 then q ++ [x] else q.drop 1 ++ [x]

/-- Pushing a sequence of chunks one at a time (single producer, no
concurrent consumer). -/
def push_all (q : List ProcessedChunk) (xs : List ProcessedChunk) : List ProcessedChunk :=
  xs.foldl try_push q

/-- A concrete overflow stream of 1001 distinct chunks. -/
def overflowStream : List ProcessedChunk :=
  (List.range 1001).map fun i => ⟨i, "", []⟩

/-! ## RecordingSession: `app.py` module state and `stop_delsys_recording`

`app.py` keeps `NUM_SENSORS = 16`, the module-level constant
`SAMPLING_RATE = 2000.0` (line 40), `recording_data_buffer` (one list per
channel plus one timestamp row at index 0, line 52), `start_time` and
`trial_counter`.  `stop_delsys_recording` (lines 166-274) is embedded as a
pure state transformer; the success/failure of the two disk writes
(`interleaved_matrix.tofile` and `scipy.io.savemat`) are injected as the
booleans `binOk` and `metaOk`. -/

/-- `app.py` line 39: `NUM_SENSORS = 16`. -/
def APP_NUM_SENSORS : ℕ := 16

/-- `app.py` line 40: the module-level `SAMPLING_RATE = 2000.0` used by
`generate_timestamps` and the metadata record.  (This constant is distinct
from the handler's own `SAMPLING_RATE` attribute, which rate negotiation may
change.) -/
def APP_SAMPLING_RATE : ℚ := 2000

/-- `app.py` lines 67-72, `generate_timestamps`: zeros when `start_time` is
unset, otherwise `start_time + np.arange(num_samples) / SAMPLING_RATE`. -/
def generate_timestamps (start_time : Option ℚ) (num_samples : ℕ) : List ℚ :=
  match start_time with
  | none => List.replicate num_samples 0
  | some t => (List.range num_samples).map fun i : ℕ => t + (i : ℚ) / APP_SAMPLING_RATE

/-- The mutable module state of `app.py` that `stop_delsys_recording`
reads and writes: `is_recording`, `recording_data_buffer` (index 0 is the
timestamp row, indices 1..16 the channels), `start_time`, `trial_counter`. -/
structure AppState where
  is_recording : Bool
  buffers : List (List ℚ)
  start_time : Option ℚ
  trial_counter : ℕ
deriving DecidableEq

/-- The distinct return paths of `stop_delsys_recording`. -/
inductive StopOutcome where
  | notRecording
  | noData
  | noDataAfterTrim
  | binWriteFailed
  | saved
deriving DecidableEq

/-- Result of one `stop_delsys_recording` call: the new module state, the
returned success flag, which return path was taken, the matrix written by
`tofile` (when that write happened and succeeded), and whether a metadata
warning was printed. -/
structure StopResult where
  state : AppState
  success : Bool
  outcome : StopOutcome
  persisted : Option (List (List ℚ))
  metaWarning : Bool
deriving DecidableEq

/-- `[[] for _ in range(NUM_SENSORS + 1)]` (`app.py` lines 187, 195, 214). -/
def emptyBuffers : List (List ℚ) := List.replicate (APP_NUM_SENSORS + 1) []

/-- `app.py` line 185:
`[len(recording_data_buffer[i]) for i in range(1, NUM_SENSORS + 1)]`. -/
def sampleCounts (bufs : List (List ℚ)) : List ℕ :=
  (List.range APP_NUM_SENSORS).map fun i => (bufs.getD (i + 1) []).length

/-- Python `min(...)` over a list, 0 for the (unreachable) empty list. -/
def minOfCounts : List ℕ → ℕ
  | [] => 0
  | c :: cs => cs.foldl Nat.min c

/-- `min_samples = min(sample_counts)` as computed at `app.py` line 191. -/
def stopMinLen (st : AppState) : ℕ := minOfCounts (sampleCounts st.buffers)

/-- The per-row alignment of `app.py` lines 203-209: trim to `min_samples`
if longer, zero-pad at the tail if shorter, keep unchanged if equal. -/
def adjustRow (min_samples : ℕ) (buffer_data : List ℚ) : List ℚ :=
  if min_samples < buffer_data.length then buffer_data.take min_samples
  else buffer_data ++ List.replicate (min_samples - buffer_data.length) 0

/-- `app.py` lines 166-274, `stop_delsys_recording`.  Control flow in source
order: the `is_recording` guard; the all-counts-zero guard (line 186); the
`min_samples == 0` guard (line 194); synthesis of the timestamp row
(lines 199-200); per-row trim/pad into `final_data_arrays` and `vstack`
(lines 202-217); the binary write whose failure returns the operation's
failure (lines 231-235); the metadata write whose failure only prints a
warning (lines 237-257); and the trial-counter increment (line 260). -/
def stop_delsys_recording (st : AppState) (binOk metaOk : Bool) : StopResult :=
  if st.is_recording = false then
    ⟨st, false, .notRecording, none, false⟩
  else
    let counts := sampleCounts st.buffers
    if counts.all (fun c => c == 0) = true then
      ⟨⟨false, emptyBuffers, none, st.trial_counter⟩, false, .noData, none, false⟩
    else
      let min_samples := minOfCounts counts
      if min_samples = 0 then
        ⟨⟨false, emptyBuffers, none, st.trial_counter⟩, false, .noDataAfterTrim, none, false⟩
      else
        let timestamps := generate_timestamps st.start_time min_samples
        let bufs1 := timestamps :: st.buffers.drop 1
        let matrix := (List.range (APP_NUM_SENSORS + 1)).map fun i =>
          adjustRow min_samples (bufs1.getD i [])
        if binOk = false then
          ⟨⟨false, emptyBuffers, none, st.trial_counter⟩, false, .binWriteFailed, none, false⟩
        else
          ⟨⟨false, emptyBuffers, none, st.trial_counter + 1⟩, true, .saved, some matrix, !metaOk⟩

/-! ## DelsysDataHandler: construction and rate negotiation

`delsys_handler.py` lines 27-85 and 141-182.  `_design_filters` is embedded
at the granularity of the arguments handed to scipy's `butter`/`iirnotch`
design routines (orders, quality factor, cutoffs normalised by the Nyquist
frequency `0.5 * fs`): those routines are deterministic functions of these
arguments, so equality of `FilterDesign` values captures "the coefficients
were (re)computed for this sampling rate". -/

/-- The scipy design-call arguments produced by `_design_filters`
(lines 65-85). -/
structure FilterDesign where
  hp_order : ℕ
  hp_wn : ℚ
  notch_w0 : ℚ
  notch_q : ℚ
  bp_order : ℕ
  bp_low : ℚ
  bp_high : ℚ
  lp_order : ℕ
  lp_wn : ℚ
deriving DecidableEq

/-- `_design_filters` (lines 65-85): high-pass order 2 cutoff 0.5 Hz, notch
60 Hz with quality factor 30, band-pass order 4 over 20-450 Hz, low-pass
order 2 cutoff 10 Hz, all normalised by `0.5 * fs`. -/
def design_filters (fs : ℚ) : FilterDesign :=
  { hp_order := 2, hp_wn := (1 / 2) / ((1 / 2) * fs)
  , notch_w0 := 60 / ((1 / 2) * fs), notch_q := 30
  , bp_order := 4, bp_low := 20 / ((1 / 2) * fs), bp_high := 450 / ((1 / 2) * fs)
  , lp_order := 2, lp_wn := 10 / ((1 / 2) * fs) }

/-- The handler attributes that `configure_system` reads or writes. -/
structure HandlerState where
  SAMPLING_RATE : ℚ
  rate_adjusted_bytes : ℕ
  ACCUMULATION_SIZE : ℕ
  envelope : Bool
  filters : FilterDesign
deriving DecidableEq

/-- `__init__` (lines 27-63): requested sampling rate, default frame size
1728 (line 60), the accumulation size (hard-coded 75 at line 52; exposed
here as a parameter so that claims quantifying over "every configuration" of
the accumulation window can be stated — `defaultHandler` instantiates the
shipped value), envelope off by default, and an initial `_design_filters()`
call. -/
def handlerInit (sampling_rate : ℚ) (accumulation_size : ℕ) : HandlerState :=
  ⟨sampling_rate, 1728, accumulation_size, false, design_filters sampling_rate⟩

/-- The handler exactly as `app.py` constructs it: requested rate 2000 Hz,
accumulation window 75. -/
def defaultHandler : HandlerState := handlerInit 2000 75

/-- Sequence-prefix test used to implement the Python substring operator. -/
def startsWith : List Char → List Char → Bool
  | [], _ => true
  | _ :: _, [] => false
  | p :: ps, c :: cs => p == c && startsWith ps cs

/-- Contiguous-subsequence test over character lists. -/
def containsSeq (pat : List Char) : List Char → Bool
  | [] => pat.isEmpty
  | c :: cs => startsWith pat (c :: cs) || containsSeq pat cs

/-- The substring test `'1925' in response` of `configure_system` line 163. -/
def rateReplyHas1925 (response : List Char) : Bool :=
  containsSeq [ '1', '9', '2', '5' ] response

/-- The alternate actual rate `1925.926` (line 165) as an exact rational. -/
def ALT_RATE : ℚ := 1925926 / 1000

/-- `configure_system` (lines 141-182), reply-handling part (lines 159-176):
the "1925" substring selects frame size 1664 and actual rate 1925.926,
otherwise 1728 and 2000 Hz; when the actual rate differs from the current
`SAMPLING_RATE`, the rate is updated and `_design_filters()` re-run. -/
def configure_system (st : HandlerState) (response : List Char) : HandlerState :=
  let rate_adjusted_bytes := if rateReplyHas1925 response = true then 1664 else 1728
  let actual_rate : ℚ := if rateReplyHas1925 response = true then ALT_RATE else 2000
  if actual_rate ≠ st.SAMPLING_RATE then
    { st with
      rate_adjusted_bytes := rate_adjusted_bytes,
      SAMPLING_RATE := actual_rate,
      filters := design_filters actual_rate }
  else
    { st with rate_adjusted_bytes := rate_adjusted_bytes }

/-- A concrete `RATE?` reply selecting the alternate profile. -/
def reply1925 : List Char := [ '1', '9', '2', '5' ]

/-- State with every channel holding exactly two samples and
`start_time = 0`. -/
def twoSampleState : AppState :=
  ⟨true, [] :: List.replicate 16 [(0 : ℚ), 0], some 0, 1⟩

/-! ## FrameDemuxer: accumulation buffers and the per-channel drain loop

`_process_raw_data` (lines 207-248), per channel: `channel_data =
raw_data_chunk[channel::NUM_SENSORS]`, `buffer.extend(channel_data)` on a
`deque(maxlen=ACCUMULATION_SIZE)` created at line 53, and when
`len(buffer) >= ACCUMULATION_SIZE` (line 218) the whole buffer is converted
to an array, handed to `process_emg_channel`, and the buffer cleared
(line 243). -/

/-- One `deque.append` with `maxlen = A`: when the deque is full the
leftmost (oldest) element is discarded to admit the new one. -/
def deque_append (A : ℕ) (q : List ℚ) (x : ℚ) : List ℚ :=
  if q.length < A then q ++ [x] else q.drop 1 ++ [x]

/-- `deque.extend`: repeated `append` of each element in order. -/
def deque_extend (A : ℕ) (q : List ℚ) (xs : List ℚ) : List ℚ :=
  xs.foldl (deque_append A) q

/-- `raw_data_chunk[channel::N]` (line 213): the stride-`N` slice starting
at index `channel`. -/
def demux_channel (N : ℕ) (frame : List ℚ) (channel : ℕ) : List ℚ :=
  (List.range frame.length).filterMap fun i =>
    if i % N = channel then some (frame.getD i 0) else none

/-- One channel's view of one `_process_raw_data` call: the buffer before,
the demultiplexed frame samples, the array handed to the filter pipeline
(when the drain check fired), and the buffer afterwards. -/
structure StepRec where
  before : List ℚ
  frame : List ℚ
  handed : Option (List ℚ)
  after : List ℚ
deriving DecidableEq

/-- One `_process_raw_data` iteration for one channel (lines 215-243):
extend the bounded deque; if `len(buffer) >= ACCUMULATION_SIZE`, hand the
accumulated array to the filter pipeline and clear the buffer. -/
def channelStep (A : ℕ) (q : List ℚ) (f : List ℚ) : StepRec :=
  let ext := deque_extend A q f
  if A ≤ ext.length then ⟨q, f, some ext, []⟩ else ⟨q, f, none, ext⟩

/-- The per-channel trace of a sequence of frame ingestions. -/
def channelTraceAux (A : ℕ) (q : List ℚ) : List (List ℚ) → List StepRec
  | [] => []
  | f :: fs => channelStep A q f :: channelTraceAux A (channelStep A q f).after fs

/-- Trace starting from the empty buffer the handler is constructed with. -/
def channelTrace (A : ℕ) (frames : List (List ℚ)) : List StepRec :=
  channelTraceAux A [] frames

/-- The buffer remaining after a sequence of frame ingestions. -/
def runBuf (A : ℕ) (q : List ℚ) : List (List ℚ) → List ℚ
  | [] => q
  | f :: fs => runBuf A (channelStep A q f).after fs

/-- A channel's raw sample stream chunked into the `S = 27` samples per
frame that the default profile delivers (1728 bytes = 432 float32 values
across 16 channels). -/
def frames27 (raw : List ℚ) (numFrames : ℕ) : List (List ℚ) :=
  (List.range numFrames).map fun j => (raw.drop (27 * j)).take 27

/-! ## FilterPipeline: zero-phase filtering and `process_emg_channel`

`process_emg_channel` (lines 87-105) applies three zero-phase filter stages,
full-wave rectification, and an optional envelope stage.  Each filter stage
is `scipy.signal.filtfilt` with default arguments, embedded following
scipy's implementation: odd extension of `padlen = 3 * max(len(a), len(b))`
samples at both ends, a forward `lfilter` pass seeded with
`lfilter_zi(b, a) * ext[0]`, a backward pass over the reversed output seeded
with `lfilter_zi(b, a) * y[-1]`, and removal of the padding; scipy raises a
`ValueError` when the input is not longer than `padlen`, embedded as `none`.
The numeric coefficient arrays come from scipy's `butter`/`iirnotch` design
routines, which are external to this repository, so the pipeline is
parameterised over any coefficient lists with the shapes those routines
return (`bankWF`). -/

/-- One sample of `scipy.signal.lfilter` in transposed direct-form II, with
`b`, `a` already padded to the common length `k` and normalised by `a[0]`:
`y = b[0]*x + z[0]` and `z'[i] = b[i+1]*x + z[i+1] - a[i+1]*y` (missing
state entries read as 0). -/
def lfilterStep (k : ℕ) (bn an : List ℚ) (z : List ℚ) (x : ℚ) : ℚ × List ℚ :=
  let y := bn.headD 0 * x + z.headD 0
  (y, (List.range (k - 1)).map fun i =>
    bn.getD (i + 1) 0 * x + z.getD (i + 1) 0 - an.getD (i + 1) 0 * y)

/-- The `lfilter` recursion over the input samples. -/
def lfilterGo (k : ℕ) (bn an : List ℚ) (z : List ℚ) : List ℚ → List ℚ
  | [] => []
  | v :: vs =>
      (lfilterStep k bn an z v).1 ::
        lfilterGo k bn an (lfilterStep k bn an z v).2 vs

/-- `scipy.signal.lfilter b a x zi`: pad `b` and `a` to their common length,
normalise by `a[0]`, then run the recursion from the given initial state. -/
def lfilterQ (b a : List ℚ) (x : List ℚ) (zi : List ℚ) : List ℚ :=
  let k := max a.length b.length
  let a0 := a.headD 0
  let bn := (b ++ List.replicate (k - b.length) 0).map fun v => v / a0
  let an := (a ++ List.replicate (k - a.length) 0).map fun v => v / a0
  lfilterGo k bn an zi x

/-- `scipy.signal.lfilter_zi b a`: the steady-state initial filter
conditions, the solution of
`(I - Companion(a)^T) zi = b[1:] - a[1:] * b[0]` after normalising by
`a[0]`; the linear solve is expressed through the adjugate (Cramer's
rule). -/
def lfilterZi (b a : List ℚ) : List ℚ :=
  let k := max a.length b.length
  let a0 := a.headD 0
  let bn := (b ++ List.replicate (k - b.length) 0).map fun v => v / a0
  let an := (a ++ List.replicate (k - a.length) 0).map fun v => v / a0
  let M : Matrix (Fin (k - 1)) (Fin (k - 1)) ℚ := Matrix.of fun i j =>
    (if i = j then (1 : ℚ) else 0) -
      (if (j : ℕ) = 0 then -(an.getD ((i : ℕ) + 1) 0)
       else if (j : ℕ) = (i : ℕ) + 1 then 1 else 0)
  let B : Fin (k - 1) → ℚ := fun i =>
    bn.getD ((i : ℕ) + 1) 0 - an.getD ((i : ℕ) + 1) 0 * bn.getD 0 0
  List.ofFn fun i : Fin (k - 1) => (M.det)⁻¹ * (M.adjugate.mulVec B i)

/-- scipy's `odd_ext`: odd reflection of `n` samples at each end. -/
def oddExt (x : List ℚ) (n : ℕ) : List ℚ :=
  ((List.range n).map fun i => 2 * x.headD 0 - x.getD (n - i) 0)
    ++ x ++
    ((List.range n).map fun i => 2 * (x.getLast?.getD 0) - x.getD (x.length - 2 - i) 0)

/-- `padlen = 3 * max(len(a), len(b))`, scipy's default for `filtfilt`. -/
def padlenOf (b a : List ℚ) : ℕ := 3 * max a.length b.length

/-- The value computed by `scipy.signal.filtfilt` on a sufficiently long
input: forward and backward passes over the odd-extended signal, then the
padding removed. -/
def filtfiltRun (b a : List ℚ) (x : List ℚ) : List ℚ :=
  let p := padlenOf b a
  let ext := oddExt x p
  let zi := lfilterZi b a
  let y1 := lfilterQ b a ext (zi.map fun v => v * ext.headD 0)
  let y2 := lfilterQ b a y1.reverse (zi.map fun v => v * (y1.getLast?.getD 0))
  let y3 := y2.reverse
  (y3.drop p).take (y3.length - 2 * p)

/-- `scipy.signal.filtfilt` as called by `process_emg_channel`: fails
(scipy raises) unless the input is longer than `padlen`. -/
def filtfiltQ (b a : List ℚ) (x : List ℚ) : Option (List ℚ) :=
  if padlenOf b a < x.length then some (filtfiltRun b a x) else none

/-- Full-wave rectification, `np.abs(processed_data)` (line 101). -/
def rectify (x : List ℚ) : List ℚ := x.map fun v => |v|

/-- The numeric coefficient arrays set up by `_design_filters`. -/
structure FilterBank where
  hp_b : List ℚ
  hp_a : List ℚ
  notch_b : List ℚ
  notch_a : List ℚ
  bp_b : List ℚ
  bp_a : List ℚ
  lp_b : List ℚ
  lp_a : List ℚ
deriving DecidableEq

/-- The coefficient shapes guaranteed by the scipy design calls of
`_design_filters`: `butter` of order `n` returns `n + 1` coefficients per
array for low/high-pass (order 2 gives 3) and `2n + 1` for band-pass
(order 4 gives 9); `iirnotch` returns 3. -/
def bankWF (fb : FilterBank) : Prop :=
  fb.hp_b.length = 3 ∧ fb.hp_a.length = 3 ∧
  fb.notch_b.length = 3 ∧ fb.notch_a.length = 3 ∧
  fb.bp_b.length = 9 ∧ fb.bp_a.length = 9 ∧
  fb.lp_b.length = 3 ∧ fb.lp_a.length = 3

/-- `process_emg_channel` (lines 87-105): zero-phase high-pass, notch and
band-pass stages, full-wave rectification, and — only in envelope mode — a
zero-phase low-pass stage. -/
def process_emg_channel (fb : FilterBank) (envelope : Bool) (data : List ℚ) :
    Option (List ℚ) :=
  (filtfiltQ fb.hp_b fb.hp_a data).bind fun s1 =>
  (filtfiltQ fb.notch_b fb.notch_a s1).bind fun s2 =>
  (filtfiltQ fb.bp_b fb.bp_a s2).bind fun s3 =>
  if envelope then filtfiltQ fb.lp_b fb.lp_a (rectify s3) else some (rectify s3)

/-- A concrete well-formed coefficient bank used by witnesses. -/
def dummyBank : FilterBank :=
  ⟨[1, 0, 0], [1, 0, 0], [1, 0, 0], [1, 0, 0],
   [1, 0, 0, 0, 0, 0, 0, 0, 0], [1, 0, 0, 0, 0, 0, 0, 0, 0],
   [1, 0, 0], [1, 0, 0]⟩

/-- State with every channel buffer empty at stop time. -/
def allEmptyState : AppState := ⟨true, List.replicate 17 [], some 5, 3⟩

/-- State where channel 1 holds one sample and every other channel is empty:
sample counts are not all zero, yet `min_samples = 0`. -/
def mixedEmptyState : AppState :=
  ⟨true, [] :: [(1 : ℚ)] :: List.replicate 15 [], none, 1⟩

/-- State realising the spec's `[100, 100, 97, 100]` shape across the 16
channels: channel 3 holds 97 samples, every other channel 100. -/
def exampleState : AppState :=
  ⟨true, [] :: List.replicate 100 (1 : ℚ) :: List.replicate 100 (1 : ℚ) ::
      List.replicate 97 (2 : ℚ) :: List.replicate 13 (List.replicate 100 (1 : ℚ)),
    some 0, 1⟩

/-! ## Claim-support lemmas -/

theorem foldl_min_zero : ∀ cs : List ℕ, cs.foldl Nat.min 0 = 0 := by
  intro cs
  induction cs with
  | nil => rfl
  | cons c cs ih =>
      rw [List.foldl_cons]
      have h0 : Nat.min 0 c = 0 := Nat.zero_min c
      rw [h0]
      exact ih

theorem minOfCounts_of_all_zero (l : List ℕ)
    (h : l.all (fun c => c == 0) = true) : minOfCounts l = 0 := by
  cases l with
  | nil => rfl
  | cons c cs =>
      rw [List.all_cons, Bool.and_eq_true, beq_iff_eq] at h
      obtain ⟨hc, _⟩ := h
      subst hc
      exact foldl_min_zero cs

theorem getD_emptyBuffers : ∀ i, emptyBuffers.getD i [] = [] := by
  have h : ∀ (n i : ℕ), (List.replicate n ([] : List ℚ)).getD i [] = [] := by
    intro n
    induction n with
    | zero => intro i; cases i <;> rfl
    | succ n ih =>
        intro i
        cases i with
        | zero => rfl
        | succ j => exact ih j
  intro i
  exact h _ i

theorem adjustRow_length (m : ℕ) (b : List ℚ) : (adjustRow m b).length = m := by
  unfold adjustRow
  by_cases hlt : m < b.length
  · rw [if_pos hlt, List.length_take]
    omega
  · rw [if_neg hlt, List.length_append, List.length_replicate]
    omega

theorem adjustRow_of_le (m : ℕ) (b : List ℚ) (h : m ≤ b.length) :
    adjustRow m b = b.take m := by
  unfold adjustRow
  by_cases hlt : m < b.length
  · rw [if_pos hlt]
  · rw [if_neg hlt]
    have hm : b.length = m := by omega
    rw [hm, Nat.sub_self, List.replicate_zero, List.append_nil, ← hm, List.take_length]

theorem adjustRow_of_eq (m : ℕ) (b : List ℚ) (h : b.length = m) :
    adjustRow m b = b := by
  rw [adjustRow_of_le m b (by omega), ← h, List.take_length]

theorem adjustRow_of_lt (m : ℕ) (b : List ℚ) (h : b.length < m) :
    adjustRow m b = b ++ List.replicate (m - b.length) 0 := by
  unfold adjustRow
  rw [if_neg (by omega)]

theorem getD_map_range (f : ℕ → List ℚ) (n i : ℕ) (hi : i < n) :
    ((List.range n).map f).getD i [] = f i := by
  have hlen : i < ((List.range n).map f).length := by
    rw [List.length_map, List.length_range]
    exact hi
  rw [List.getD_eq_getElem _ _ hlen, List.getElem_map, List.getElem_range]

theorem getD_cons_drop (ts : List ℚ) (bufs : List (List ℚ)) (i : ℕ) :
    (ts :: bufs.drop 1).getD (i + 1) [] = bufs.getD (i + 1) [] := by
  rw [List.getD_cons_succ, List.getD_eq_getElem?_getD, List.getElem?_drop,
    List.getD_eq_getElem?_getD, Nat.add_comm]

/-- Under the save-path conditions (`is_recording`, a positive `min_samples`,
a successful binary write), `stop_delsys_recording` reaches the save branch
and the whole result is the literal described by the source. -/
theorem stop_reaches_save (st : AppState) (metaOk : Bool)
    (hrec : st.is_recording = true) (hmin : 0 < stopMinLen st) :
    stop_delsys_recording st true metaOk =
      ⟨⟨false, emptyBuffers, none, st.trial_counter + 1⟩, true, .saved,
        some ((List.range (APP_NUM_SENSORS + 1)).map fun i =>
          adjustRow (stopMinLen st)
            ((generate_timestamps st.start_time (stopMinLen st) :: st.buffers.drop 1).getD i [])),
        !metaOk⟩ := by
  have hall : ¬ ((sampleCounts st.buffers).all (fun c => c == 0) = true) := by
    intro h
    have h0 := minOfCounts_of_all_zero _ h
    unfold stopMinLen at hmin
    omega
  have hne : ¬ (st.is_recording = false) := by
    rw [hrec]
    simp
  have hm0 : ¬ (minOfCounts (sampleCounts st.buffers) = 0) := by
    unfold stopMinLen at hmin
    omega
  have hb : ¬ ((true : Bool) = false) := by simp
  simp only [stop_delsys_recording]
  rw [if_neg hne, if_neg hall, if_neg hm0, if_neg hb]
  rfl

theorem deque_extend_eq_drop (A : ℕ) (hA : 0 < A) :
    ∀ (xs q : List ℚ), q.length ≤ A →
      deque_extend A q xs = (q ++ xs).drop (q.length + xs.length - A) := by
  intro xs
  induction xs with
  | nil =>
      intro q hq
      have h0 : q.length + ([] : List ℚ).length - A = 0 := by
        simp
        omega
      rw [h0]
      simp [deque_extend]
  | cons x rest ih =>
      intro q hq
      have hstep : deque_extend A q (x :: rest) = deque_extend A (deque_append A q x) rest := rfl
      rw [hstep]
      by_cases hlt : q.length < A
      · have htp : deque_append A q x = q ++ [x] := by
          unfold deque_append
          rw [if_pos hlt]
        rw [htp, ih (q ++ [x]) (by rw [List.length_append]; simp; omega)]
        have e1 : q ++ [x] ++ rest = q ++ x :: rest := by
          rw [List.append_assoc]
          rfl
        have e2 : (q ++ [x]).length + rest.length - A
            = q.length + (x :: rest).length - A := by
          simp only [List.length_append, List.length_cons, List.length_nil]
          omega
        rw [e1, e2]
      · have hql : q.length = A := by omega
        have hqne : q ≠ [] := by
          intro h
          rw [h] at hql
          simp at hql
          omega
        have htp : deque_append A q x = q.drop 1 ++ [x] := by
          unfold deque_append
          rw [if_neg hlt]
        rw [htp, ih (q.drop 1 ++ [x])
          (by rw [List.length_append, List.length_drop]; simp; omega)]
        have h1 : q.drop 1 ++ [x] ++ rest = (q ++ x :: rest).drop 1 := by
          cases q with
          | nil => exact absurd rfl hqne
          | cons a as => simp
        have e2 : (q.drop 1 ++ [x]).length + rest.length - A = rest.length := by
          rw [List.length_append, List.length_drop, List.length_singleton]
          omega
        have e3 : q.length + (x :: rest).length - A = rest.length + 1 := by
          rw [List.length_cons]
          omega
        rw [h1, e2, e3, List.drop_drop, Nat.add_comm]

theorem natMin_ite (a b : ℕ) : Nat.min a b = if a ≤ b then a else b := rfl

theorem deque_extend_length (A : ℕ) (hA : 0 < A) (q xs : List ℚ)
    (hq : q.length ≤ A) :
    (deque_extend A q xs).length = Nat.min A (q.length + xs.length) := by
  rw [deque_extend_eq_drop A hA xs q hq, List.length_drop, List.length_append,
    natMin_ite]
  split <;> omega

theorem channelStep_fire (A : ℕ) (q f : List ℚ)
    (hd : A ≤ (deque_extend A q f).length) :
    channelStep A q f = ⟨q, f, some (deque_extend A q f), []⟩ := by
  unfold channelStep
  rw [if_pos hd]

theorem channelStep_skip (A : ℕ) (q f : List ℚ)
    (hd : ¬ A ≤ (deque_extend A q f).length) :
    channelStep A q f = ⟨q, f, none, deque_extend A q f⟩ := by
  unfold channelStep
  rw [if_neg hd]

theorem channelTraceAux_mem_spec (A : ℕ) (hA : 0 < A) :
    ∀ (fs : List (List ℚ)) (q : List ℚ), q.length < A →
      ∀ r ∈ channelTraceAux A q fs,
        r.before.length < A ∧
        (r.handed.isSome = true ↔ A ≤ r.before.length + r.frame.length) ∧
        (∀ c, r.handed = some c → c.length = A ∧ r.after = []) ∧
        (r.handed = none → r.after.length < A) := by
  intro fs
  induction fs with
  | nil =>
      intro q hq r hr
      simp [channelTraceAux] at hr
  | cons f rest ih =>
      intro q hq r hr
      have hext : (deque_extend A q f).length = Nat.min A (q.length + f.length) :=
        deque_extend_length A hA q f (by omega)
      have hstep :
          (channelStep A q f).before.length < A ∧
          ((channelStep A q f).handed.isSome = true ↔
            A ≤ (channelStep A q f).before.length + (channelStep A q f).frame.length) ∧
          (∀ c, (channelStep A q f).handed = some c →
            c.length = A ∧ (channelStep A q f).after = []) ∧
          ((channelStep A q f).handed = none → (channelStep A q f).after.length < A) := by
        rcases Nat.le_total A (q.length + f.length) with htot | htot
        · have hextA : (deque_extend A q f).length = A := by
            rw [hext, natMin_ite]
            split <;> omega
          have hd : A ≤ (deque_extend A q f).length := by omega
          rw [channelStep_fire A q f hd]
          refine ⟨hq, ?_, ?_, by simp⟩
          · simp only [Option.isSome_some, true_iff]
            omega
          · intro c hc
            simp only [Option.some_inj] at hc
            subst hc
            exact ⟨hextA, rfl⟩
        · have hextT : (deque_extend A q f).length = q.length + f.length := by
            rw [hext, natMin_ite]
            split <;> omega
          by_cases hd : A ≤ (deque_extend A q f).length
          · rw [channelStep_fire A q f hd]
            refine ⟨hq, ?_, ?_, by simp⟩
            · simp only [Option.isSome_some, true_iff]
              omega
            · intro c hc
              simp only [Option.some_inj] at hc
              subst hc
              refine ⟨?_, rfl⟩
              omega
          · rw [channelStep_skip A q f hd]
            refine ⟨hq, ?_, by simp, ?_⟩
            · simp only [Option.isSome_none, Bool.false_eq_true, false_iff]
              omega
            · intro _
              show (deque_extend A q f).length < A
              omega
      have hafter : (channelStep A q f).after.length < A := by
        rcases h : (channelStep A q f).handed with _ | c
        · exact hstep.2.2.2 h
        · rw [(hstep.2.2.1 c h).2]
          simpa using hA
      rw [channelTraceAux] at hr
      rcases List.mem_cons.mp hr with hcase | hcase
      · subst hcase
        exact hstep
      · exact ih (channelStep A q f).after hafter r hcase

theorem deque_extend_of_le (A : ℕ) (hA : 0 < A) (q xs : List ℚ)
    (hq : q.length ≤ A) (h : q.length + xs.length ≤ A) :
    deque_extend A q xs = q ++ xs := by
  rw [deque_extend_eq_drop A hA xs q hq]
  have h0 : q.length + xs.length - A = 0 := by omega
  rw [h0, List.drop_zero]

theorem channelTraceAux_append (A : ℕ) :
    ∀ (fs gs : List (List ℚ)) (q : List ℚ),
      channelTraceAux A q (fs ++ gs)
        = channelTraceAux A q fs ++ channelTraceAux A (runBuf A q fs) gs := by
  intro fs
  induction fs with
  | nil =>
      intro gs q
      rfl
  | cons f rest ih =>
      intro gs q
      simp only [List.cons_append, channelTraceAux, runBuf, List.append_eq]
      rw [ih]

/-- One full drain cycle of the default profile: three 27-sample frames fill
the 75-slot deque; the third extension evicts the 6 oldest samples, fires
the drain, and hands samples 6..80 of the cycle to the filter pipeline. -/
theorem cycle_trace (raw : List ℚ) (h81 : 81 ≤ raw.length) :
    channelTraceAux 75 [] (frames27 raw 3)
      = [⟨[], raw.take 27, none, raw.take 27⟩,
         ⟨raw.take 27, (raw.drop 27).take 27, none, raw.take 54⟩,
         ⟨raw.take 54, (raw.drop 54).take 27, some ((raw.drop 6).take 75), []⟩] ∧
    runBuf 75 [] (frames27 raw 3) = [] := by
  have hA : (0 : ℕ) < 75 := by omega
  have hfr : frames27 raw 3
      = [raw.take 27, (raw.drop 27).take 27, (raw.drop 54).take 27] := by
    unfold frames27
    norm_num [List.range_succ]
  have hl27 : (raw.take 27).length = 27 := by
    rw [List.length_take]
    omega
  have hl54 : (raw.take 54).length = 54 := by
    rw [List.length_take]
    omega
  have hld27 : ((raw.drop 27).take 27).length = 27 := by
    rw [List.length_take, List.length_drop]
    omega
  have hld54 : ((raw.drop 54).take 27).length = 27 := by
    rw [List.length_take, List.length_drop]
    omega
  have hext1 : deque_extend 75 [] (raw.take 27) = raw.take 27 := by
    rw [deque_extend_of_le 75 hA [] (raw.take 27) (by simp) (by simp [hl27]),
      List.nil_append]
  have hstep1 : channelStep 75 [] (raw.take 27)
      = ⟨[], raw.take 27, none, raw.take 27⟩ := by
    rw [channelStep_skip]
    · rw [hext1]
    · rw [hext1, hl27]
      omega
  have hext2 : deque_extend 75 (raw.take 27) ((raw.drop 27).take 27) = raw.take 54 := by
    rw [deque_extend_of_le 75 hA _ _ (by omega) (by omega)]
    have h54 : (54 : ℕ) = 27 + 27 := by norm_num
    rw [h54, List.take_add]
  have hstep2 : channelStep 75 (raw.take 27) ((raw.drop 27).take 27)
      = ⟨raw.take 27, (raw.drop 27).take 27, none, raw.take 54⟩ := by
    rw [channelStep_skip]
    · rw [hext2]
    · rw [hext2, hl54]
      omega
  have hext3 : deque_extend 75 (raw.take 54) ((raw.drop 54).take 27)
      = (raw.drop 6).take 75 := by
    rw [deque_extend_eq_drop 75 hA _ _ (by omega)]
    rw [hl54, hld54]
    have h81' : (raw.take 54) ++ (raw.drop 54).take 27 = raw.take 81 := by
      have h81'' : (81 : ℕ) = 54 + 27 := by norm_num
      rw [h81'', List.take_add]
    rw [h81']
    have h6 : (54 + 27 - 75 : ℕ) = 6 := by norm_num
    rw [h6, List.drop_take]
  have hext3len : ((raw.drop 6).take 75).length = 75 := by
    rw [List.length_take, List.length_drop]
    omega
  have hstep3 : channelStep 75 (raw.take 54) ((raw.drop 54).take 27)
      = ⟨raw.take 54, (raw.drop 54).take 27, some ((raw.drop 6).take 75), []⟩ := by
    rw [channelStep_fire]
    · rw [hext3]
    · rw [hext3, hext3len]
  rw [hfr]
  constructor
  · show channelStep 75 [] (raw.take 27) ::
      channelStep 75 (channelStep 75 [] (raw.take 27)).after ((raw.drop 27).take 27) ::
      channelStep 75 (channelStep 75 (channelStep 75 [] (raw.take 27)).after
        ((raw.drop 27).take 27)).after ((raw.drop 54).take 27) :: [] = _
    rw [hstep1]
    show _ :: channelStep 75 (raw.take 27) ((raw.drop 27).take 27) :: _ :: [] = _
    rw [hstep2]
    show _ :: _ :: channelStep 75 (raw.take 54) ((raw.drop 54).take 27) :: [] = _
    rw [hstep3]
  · show runBuf 75 (channelStep 75 [] (raw.take 27)).after
      [(raw.drop 27).take 27, (raw.drop 54).take 27] = []
    rw [hstep1]
    show runBuf 75 (channelStep 75 (raw.take 27) ((raw.drop 27).take 27)).after
      [(raw.drop 54).take 27] = []
    rw [hstep2]
    show runBuf 75 (channelStep 75 (raw.take 54) ((raw.drop 54).take 27)).after [] = []
    rw [hstep3]
    rfl

/-- Over `m` full drain cycles (81 raw samples each), the arrays handed to
the filter pipeline are exactly the windows `raw[81k+6 .. 81k+80]`: the six
samples `raw[81k .. 81k+5]` of each cycle are evicted by the bounded deque
and appear in no processed window. -/
theorem trace_cycles : ∀ (m : ℕ) (raw : List ℚ), raw.length = 81 * m →
    (channelTraceAux 75 [] (frames27 raw (3 * m))).filterMap (fun r => r.handed)
      = (List.range m).map (fun k => (raw.drop (81 * k + 6)).take 75) := by
  intro m
  induction m with
  | zero =>
      intro raw h
      simp [frames27, channelTraceAux]
  | succ n ih =>
      intro raw h
      have hsplit : frames27 raw (3 * (n + 1))
          = frames27 raw 3 ++ frames27 (raw.drop 81) (3 * n) := by
        unfold frames27
        have h3 : 3 * (n + 1) = 3 + 3 * n := by ring
        rw [h3, List.range_add, List.map_append, List.map_map]
        congr 1
        apply List.map_congr_left
        intro j hj
        show (raw.drop (27 * (3 + j))).take 27 = ((raw.drop 81).drop (27 * j)).take 27
        rw [List.drop_drop]
        have heq : 27 * (3 + j) = 81 + 27 * j := by ring
        rw [heq]
      have h81 : 81 ≤ raw.length := by
        rw [h]
        omega
      obtain ⟨htr, hrb⟩ := cycle_trace raw h81
      rw [hsplit, channelTraceAux_append, List.filterMap_append, htr, hrb,
        ih (raw.drop 81) (by rw [List.length_drop, h]; omega)]
      have hfm : (([⟨[], raw.take 27, none, raw.take 27⟩,
          ⟨raw.take 27, (raw.drop 27).take 27, none, raw.take 54⟩,
          ⟨raw.take 54, (raw.drop 54).take 27, some ((raw.drop 6).take 75), []⟩] :
            List StepRec).filterMap (fun r => r.handed))
          = [(raw.drop 6).take 75] := by
        simp [List.filterMap]
      rw [hfm]
      have hrg : List.range (n + 1) = 0 :: (List.range n).map Nat.succ :=
        List.range_succ_eq_map n
      rw [hrg, List.map_cons, List.map_map]
      have hhead : (raw.drop (81 * 0 + 6)).take 75 = (raw.drop 6).take 75 := by
        norm_num
      rw [hhead]
      have htail : ((List.range n).map fun k =>
            (((raw.drop 81).drop (81 * k + 6)).take 75))
          = (List.range n).map
              ((fun k => (raw.drop (81 * k + 6)).take 75) ∘ Nat.succ) := by
        apply List.map_congr_left
        intro k hk
        show ((raw.drop 81).drop (81 * k + 6)).take 75
          = (raw.drop (81 * (k + 1) + 6)).take 75
        rw [List.drop_drop]
        have heq : 81 + (81 * k + 6) = 81 * (k + 1) + 6 := by ring
        rw [heq]
      rw [htail]
      rfl

theorem lfilterGo_length (k : ℕ) (bn an : List ℚ) :
    ∀ (x z : List ℚ), (lfilterGo k bn an z x).length = x.length := by
  intro x
  induction x with
  | nil =>
      intro z
      rfl
  | cons v vs ih =>
      intro z
      simp [lfilterGo, ih]

theorem lfilterQ_length (b a x zi : List ℚ) :
    (lfilterQ b a x zi).length = x.length := by
  unfold lfilterQ
  exact lfilterGo_length _ _ _ x _

theorem oddExt_length (x : List ℚ) (n : ℕ) :
    (oddExt x n).length = n + x.length + n := by
  unfold oddExt
  rw [List.length_append, List.length_append, List.length_map, List.length_map,
    List.length_range]

theorem filtfiltRun_length (b a x : List ℚ) :
    (filtfiltRun b a x).length = x.length := by
  unfold filtfiltRun
  rw [List.length_take, List.length_drop, List.length_reverse, lfilterQ_length,
    List.length_reverse, lfilterQ_length, oddExt_length, inf_eq_min]
  have hmin : ∀ s t : ℕ, min s t = if s ≤ t then s else t := fun s t => rfl
  rw [hmin]
  split <;> omega

theorem filtfiltQ_of_lt (b a x : List ℚ) (h : padlenOf b a < x.length) :
    filtfiltQ b a x = some (filtfiltRun b a x) := by
  unfold filtfiltQ
  rw [if_pos h]

theorem filtfiltQ_length (b a x y : List ℚ) (h : filtfiltQ b a x = some y) :
    y.length = x.length := by
  unfold filtfiltQ at h
  by_cases hc : padlenOf b a < x.length
  · rw [if_pos hc, Option.some_inj] at h
    rw [← h]
    exact filtfiltRun_length b a x
  · rw [if_neg hc] at h
    exact absurd h (by simp)

theorem rectify_length (x : List ℚ) : (rectify x).length = x.length := by
  unfold rectify
  exact List.length_map x _

theorem rectify_nonneg (x : List ℚ) : ∀ v ∈ rectify x, 0 ≤ v := by
  intro v hv
  rw [rectify, List.mem_map] at hv
  obtain ⟨w, -, rfl⟩ := hv
  exact abs_nonneg w

/-- The save-path behaviour of `process_emg_channel`: on any input longer
than the largest zero-phase padding (27 samples, from the order-4 band-pass
stage) every stage succeeds and the overall output has the input's
length. -/
theorem process_emg_spec (fb : FilterBank) (env : Bool) (x : List ℚ)
    (hwf : bankWF fb) (hlen : 27 < x.length) :
    ∃ y, process_emg_channel fb env x = some y ∧ y.length = x.length := by
  obtain ⟨h1b, h1a, h2b, h2a, h3b, h3a, h4b, h4a⟩ := hwf
  have hp1 : padlenOf fb.hp_b fb.hp_a = 9 := by
    rw [padlenOf, h1b, h1a]
    decide
  have hp2 : padlenOf fb.notch_b fb.notch_a = 9 := by
    rw [padlenOf, h2b, h2a]
    decide
  have hp3 : padlenOf fb.bp_b fb.bp_a = 27 := by
    rw [padlenOf, h3b, h3a]
    decide
  have hp4 : padlenOf fb.lp_b fb.lp_a = 9 := by
    rw [padlenOf, h4b, h4a]
    decide
  have chain : ∀ (b a x' : List ℚ), padlenOf b a < x'.length →
      ∃ y, filtfiltQ b a x' = some y ∧ y.length = x'.length := fun b a x' h =>
    ⟨filtfiltRun b a x', filtfiltQ_of_lt b a x' h, filtfiltRun_length b a x'⟩
  obtain ⟨s1, e1, l1⟩ := chain fb.hp_b fb.hp_a x (by omega)
  obtain ⟨s2, e2, l2⟩ := chain fb.notch_b fb.notch_a s1 (by omega)
  obtain ⟨s3, e3, l3⟩ := chain fb.bp_b fb.bp_a s2 (by omega)
  cases env with
  | false =>
      refine ⟨rectify s3, ?_, ?_⟩
      · simp only [process_emg_channel, e1, Option.some_bind, e2, e3,
          Bool.false_eq_true, if_false]
      · rw [rectify_length, l3, l2, l1]
  | true =>
      obtain ⟨s4, e4, l4⟩ := chain fb.lp_b fb.lp_a (rectify s3)
        (by rw [rectify_length]; omega)
      refine ⟨s4, ?_, ?_⟩
      · simp only [process_emg_channel, e1, Option.some_bind, e2, e3, if_true]
        exact e4
      · rw [l4, rectify_length, l3, l2, l1]

/-! ## Claim-support lemmas for the queue -/

theorem push_all_eq_drop :
    ∀ (xs q : List ProcessedChunk), q.length ≤ 1000 →
      push_all q xs = (q ++ xs).drop (q.length + xs.length - 1000) := by
  intro xs
  induction xs with
  | nil =>
      intro q hq
      have h0 : q.length + ([] : List ProcessedChunk).length - 1000 = 0 := by
        simp
        omega
      rw [h0]
      simp [push_all]
  | cons x rest ih =>
      intro q hq
      have hstep : push_all q (x :: rest) = push_all (try_push q x) rest := rfl
      rw [hstep]
      by_cases hlt : q.length < 1000
      · have htp : try_push q x = q ++ [x] := by
          unfold try_push
          rw [if_pos hlt]
        rw [htp, ih (q ++ [x]) (by rw [List.length_append]; simp; omega)]
        have e1 : q ++ [x] ++ rest = q ++ x :: rest := by
          rw [List.append_assoc]
          rfl
        have e2 : (q ++ [x]).length + rest.length - 1000
            = q.length + (x :: rest).length - 1000 := by
          simp only [List.length_append, List.length_cons, List.length_nil]
          omega
        rw [e1, e2]
      · have hql : q.length = 1000 := by omega
        have hqne : q ≠ [] := by
          intro h
          rw [h] at hql
          simp at hql
        have htp : try_push q x = q.drop 1 ++ [x] := by
          unfold try_push
          rw [if_neg hlt]
        rw [htp, ih (q.drop 1 ++ [x])
          (by rw [List.length_append, List.length_drop]; simp; omega)]
        have h1 : q.drop 1 ++ [x] ++ rest = (q ++ x :: rest).drop 1 := by
          cases q with
          | nil => exact absurd rfl hqne
          | cons a as => simp
        have e2 : (q.drop 1 ++ [x]).length + rest.length - 1000 = rest.length := by
          rw [List.length_append, List.length_drop, List.length_singleton]
          omega
        have e3 : q.length + (x :: rest).length - 1000 = rest.length + 1 := by
          rw [List.length_cons]
          omega
        rw [h1, e2, e3, List.drop_drop, Nat.add_comm]

/-! ## Claim theorems -/

/-- Claim C3: pushing `k > 1000` chunks through the bounded output queue
(capacity 1000, drop-oldest on overflow) with no concurrent consumer leaves
exactly the most-recently-pushed 1000 chunks, in their original relative
order. -/
theorem C3_output_queue_drop_oldest (xs : List ProcessedChunk)
    (hk : 1000 < xs.length) :
    push_all [] xs = xs.drop (xs.length - 1000) ∧
    (push_all [] xs).length = 1000 := by
  have h := push_all_eq_drop xs [] (by simp)
  simp only [List.nil_append, List.length_nil, Nat.zero_add] at h
  refine ⟨h, ?_⟩
  rw [h, List.length_drop]
  omega

theorem C3_witness :
    1000 < overflowStream.length ∧
    push_all [] overflowStream = overflowStream.drop (overflowStream.length - 1000) := by
  have hk : 1000 < overflowStream.length := by
    simp [overflowStream]
  exact ⟨hk, (C3_output_queue_drop_oldest overflowStream hk).1⟩

/-- Claim C4 counterexample: the claim quantifies over stops whose
per-channel sample counts are "not all zero".  With channel 1 holding one
sample and every other channel empty, the counts are not all zero, yet
`min_samples = 0`, so `stop_delsys_recording` takes the
"no data captured (after trimming)" path and persists no matrix at all —
contradicting the claimed `(N+1) x min_len` persisted matrix. -/
theorem C4_counterexample :
    mixedEmptyState.is_recording = true ∧
    (sampleCounts mixedEmptyState.buffers).all (fun c => c == 0) = false ∧
    (stop_delsys_recording mixedEmptyState true true).persisted = none ∧
    (stop_delsys_recording mixedEmptyState true true).success = false := by
  decide

/-- Claim C4 (amended: the hypothesis "sample counts not all zero" must be
strengthened to "`min_samples = min(channel lengths) > 0`", which is what the
code actually tests before persisting): for every stop of an active session
with positive minimum channel length and a successful binary write, the
persisted matrix has `N+1 = 17` rows, every row has `min_len` columns, and
each channel row is its buffer trimmed to its first `min_len` samples if
longer, unchanged if equal, and zero-padded at the tail if shorter. -/
theorem C4_stop_trim_pad (st : AppState) (metaOk : Bool)
    (hrec : st.is_recording = true) (hmin : 0 < stopMinLen st) :
    ∃ M, (stop_delsys_recording st true metaOk).persisted = some M ∧
      M.length = APP_NUM_SENSORS + 1 ∧
      (∀ row ∈ M, row.length = stopMinLen st) ∧
      ∀ i < APP_NUM_SENSORS,
        M.getD (i + 1) [] = adjustRow (stopMinLen st) (st.buffers.getD (i + 1) []) ∧
        (stopMinLen st ≤ (st.buffers.getD (i + 1) []).length →
          M.getD (i + 1) [] = (st.buffers.getD (i + 1) []).take (stopMinLen st)) ∧
        ((st.buffers.getD (i + 1) []).length = stopMinLen st →
          M.getD (i + 1) [] = st.buffers.getD (i + 1) []) ∧
        ((st.buffers.getD (i + 1) []).length < stopMinLen st →
          M.getD (i + 1) [] = st.buffers.getD (i + 1) [] ++
            List.replicate (stopMinLen st - (st.buffers.getD (i + 1) []).length) 0) := by
  rw [stop_reaches_save st metaOk hrec hmin]
  refine ⟨_, rfl, ?_, ?_, ?_⟩
  · rw [List.length_map, List.length_range]
  · intro row hrow
    rw [List.mem_map] at hrow
    obtain ⟨j, _, rfl⟩ := hrow
    exact adjustRow_length _ _
  · intro i hi
    have hget := getD_map_range
      (fun j => adjustRow (stopMinLen st)
        ((generate_timestamps st.start_time (stopMinLen st) :: st.buffers.drop 1).getD j []))
      (APP_NUM_SENSORS + 1) (i + 1) (by omega)
    rw [hget]
    simp only [getD_cons_drop]
    refine ⟨trivial, ?_, ?_, ?_⟩
    · intro h
      exact adjustRow_of_le _ _ h
    · intro h
      exact adjustRow_of_eq _ _ h
    · intro h
      exact adjustRow_of_lt _ _ h

theorem C4_witness :
    exampleState.is_recording = true ∧ 0 < stopMinLen exampleState ∧
    ∃ M, (stop_delsys_recording exampleState true true).persisted = some M ∧
      M.length = APP_NUM_SENSORS + 1 ∧
      (∀ row ∈ M, row.length = stopMinLen exampleState) ∧
      ∀ i < APP_NUM_SENSORS,
        M.getD (i + 1) [] = adjustRow (stopMinLen exampleState) (exampleState.buffers.getD (i + 1) []) ∧
        (stopMinLen exampleState ≤ (exampleState.buffers.getD (i + 1) []).length →
          M.getD (i + 1) [] = (exampleState.buffers.getD (i + 1) []).take (stopMinLen exampleState)) ∧
        ((exampleState.buffers.getD (i + 1) []).length = stopMinLen exampleState →
          M.getD (i + 1) [] = exampleState.buffers.getD (i + 1) []) ∧
        ((exampleState.buffers.getD (i + 1) []).length < stopMinLen exampleState →
          M.getD (i + 1) [] = exampleState.buffers.getD (i + 1) [] ++
            List.replicate (stopMinLen exampleState - (exampleState.buffers.getD (i + 1) []).length) 0) :=
  ⟨by decide, by decide, C4_stop_trim_pad exampleState true (by decide) (by decide)⟩

/-- Claim C9: stopping an active session in which every channel buffer is
empty returns the "no data captured" failure, persists nothing, and leaves
every recording buffer empty afterwards. -/
theorem C9_no_data_stop (st : AppState) (binOk metaOk : Bool)
    (hrec : st.is_recording = true)
    (hempty : ∀ i < APP_NUM_SENSORS, st.buffers.getD (i + 1) [] = []) :
    (stop_delsys_recording st binOk metaOk).success = false ∧
    (stop_delsys_recording st binOk metaOk).outcome = StopOutcome.noData ∧
    (stop_delsys_recording st binOk metaOk).persisted = none ∧
    ∀ i, (stop_delsys_recording st binOk metaOk).state.buffers.getD i [] = [] := by
  have hall : (sampleCounts st.buffers).all (fun c => c == 0) = true := by
    rw [List.all_eq_true]
    intro c hc
    rw [sampleCounts, List.mem_map] at hc
    obtain ⟨i, hi, rfl⟩ := hc
    rw [List.mem_range] at hi
    rw [hempty i hi]
    rfl
  have hne : ¬ (st.is_recording = false) := by
    rw [hrec]
    simp
  simp only [stop_delsys_recording]
  rw [if_neg hne, if_pos hall]
  exact ⟨rfl, rfl, rfl, fun i => getD_emptyBuffers i⟩

theorem C9_witness :
    allEmptyState.is_recording = true ∧
    (∀ i < APP_NUM_SENSORS, allEmptyState.buffers.getD (i + 1) [] = []) ∧
    ((stop_delsys_recording allEmptyState true true).success = false ∧
      (stop_delsys_recording allEmptyState true true).outcome = StopOutcome.noData ∧
      (stop_delsys_recording allEmptyState true true).persisted = none ∧
      ∀ i, (stop_delsys_recording allEmptyState true true).state.buffers.getD i [] = []) :=
  ⟨by decide, by decide, C9_no_data_stop allEmptyState true true (by decide) (by decide)⟩

/-- Claim C7: the trial counter increments exactly when the stop succeeds,
the stop succeeds exactly when it reached the persistence step (active
session with data) and the primary binary write succeeded — independently of
the metadata write — and a metadata warning occurs exactly on an otherwise
successful stop whose metadata write failed. -/
theorem C7_trial_counter (st : AppState) (binOk metaOk : Bool) :
    (stop_delsys_recording st binOk metaOk).state.trial_counter
      = st.trial_counter +
        (if (stop_delsys_recording st binOk metaOk).success = true then 1 else 0) ∧
    ((stop_delsys_recording st binOk metaOk).success = true ↔
      st.is_recording = true ∧ 0 < stopMinLen st ∧ binOk = true) ∧
    ((stop_delsys_recording st binOk metaOk).metaWarning = true ↔
      (stop_delsys_recording st binOk metaOk).success = true ∧ metaOk = false) := by
  by_cases hrec : st.is_recording = false
  · simp only [stop_delsys_recording, if_pos hrec]
    refine ⟨by simp, ?_, by simp⟩
    simp only [Bool.false_eq_true, false_iff]
    rintro ⟨h1, -, -⟩
    rw [hrec] at h1
    exact Bool.false_ne_true h1
  · have hrec' : st.is_recording = true := by
      rw [Bool.not_eq_false] at hrec
      exact hrec
    by_cases hall : (sampleCounts st.buffers).all (fun c => c == 0) = true
    · have hm0 : stopMinLen st = 0 := minOfCounts_of_all_zero _ hall
      simp only [stop_delsys_recording, if_neg hrec, if_pos hall]
      refine ⟨by simp, ?_, by simp⟩
      simp only [Bool.false_eq_true, false_iff]
      rintro ⟨-, h2, -⟩
      omega
    · by_cases hm : minOfCounts (sampleCounts st.buffers) = 0
      · simp only [stop_delsys_recording, if_neg hrec, if_neg hall, if_pos hm]
        refine ⟨by simp, ?_, by simp⟩
        simp only [Bool.false_eq_true, false_iff]
        rintro ⟨-, h2, -⟩
        have : stopMinLen st = minOfCounts (sampleCounts st.buffers) := rfl
        omega
      · by_cases hbin : binOk = false
        · simp only [stop_delsys_recording, if_neg hrec, if_neg hall, if_neg hm, if_pos hbin]
          refine ⟨by simp, ?_, by simp⟩
          simp only [Bool.false_eq_true, false_iff]
          rintro ⟨-, -, h3⟩
          rw [hbin] at h3
          exact Bool.false_ne_true h3
        · simp only [stop_delsys_recording, if_neg hrec, if_neg hall, if_neg hm, if_neg hbin]
          refine ⟨by simp, ?_, ?_⟩
          · simp only [true_iff]
            refine ⟨hrec', ?_, by rwa [Bool.not_eq_false] at hbin⟩
            have : stopMinLen st = minOfCounts (sampleCounts st.buffers) := rfl
            omega
          · simp [Bool.not_eq_true']

/-- Claim C5: a `RATE?` reply containing "1925" selects frame size 1664,
actual rate 1925.926 Hz, and filter coefficients designed for that rate; any
other reply selects 1728 bytes, 2000 Hz, and coefficients designed for
2000 Hz.  The hypothesis is the `__init__` invariant that the current
coefficients were designed for the current rate. -/
theorem C5_rate_negotiation (st : HandlerState) (response : List Char)
    (hinv : st.filters = design_filters st.SAMPLING_RATE) :
    (rateReplyHas1925 response = true →
      (configure_system st response).rate_adjusted_bytes = 1664 ∧
      (configure_system st response).SAMPLING_RATE = ALT_RATE ∧
      (configure_system st response).filters = design_filters ALT_RATE) ∧
    (rateReplyHas1925 response = false →
      (configure_system st response).rate_adjusted_bytes = 1728 ∧
      (configure_system st response).SAMPLING_RATE = 2000 ∧
      (configure_system st response).filters = design_filters 2000) := by
  constructor
  · intro h
    simp only [configure_system, h, eq_self_iff_true, if_true]
    by_cases hne : ALT_RATE ≠ st.SAMPLING_RATE
    · rw [if_pos hne]
      exact ⟨rfl, rfl, rfl⟩
    · rw [if_neg hne]
      push_neg at hne
      exact ⟨rfl, hne.symm, by rw [hinv, ← hne]⟩
  · intro h
    simp only [configure_system, h, Bool.false_eq_true, if_false]
    by_cases hne : (2000 : ℚ) ≠ st.SAMPLING_RATE
    · rw [if_pos hne]
      exact ⟨rfl, rfl, rfl⟩
    · rw [if_neg hne]
      push_neg at hne
      exact ⟨rfl, hne.symm, by rw [hinv, ← hne]⟩

theorem C5_witness :
    defaultHandler.filters = design_filters defaultHandler.SAMPLING_RATE ∧
    rateReplyHas1925 reply1925 = true ∧
    ((configure_system defaultHandler reply1925).rate_adjusted_bytes = 1664 ∧
      (configure_system defaultHandler reply1925).SAMPLING_RATE = ALT_RATE ∧
      (configure_system defaultHandler reply1925).filters = design_filters ALT_RATE) :=
  ⟨rfl, by decide,
    (C5_rate_negotiation defaultHandler reply1925 rfl).1 (by decide)⟩

/-- Claim C1 counterexample: in a session whose rate negotiation selected
the alternate profile (reply "1925", active rate 1925.926 Hz, first
conjunct), the persisted timestamp row of a 2-sample recording is
`[0, 1/2000]` — built from the app module's 2000 Hz constant — which is not
the row `[0, 1/1925.926]` demanded by the claim for an alternate-profile
session. -/
theorem C1_counterexample :
    (configure_system defaultHandler reply1925).SAMPLING_RATE = ALT_RATE ∧
    ((stop_delsys_recording twoSampleState true true).persisted.map fun M => M.getD 0 [])
      = some [0, 1 / 2000] ∧
    some [(0 : ℚ), 1 / 2000] ≠
      some ((List.range 2).map fun i : ℕ => (0 : ℚ) + (i : ℚ) / ALT_RATE) := by
  have hne : ALT_RATE ≠ (2000 : ℚ) := by
    unfold ALT_RATE
    norm_num
  refine ⟨?_, ?_, ?_⟩
  · have h : rateReplyHas1925 reply1925 = true := by decide
    simp only [configure_system, h, eq_self_iff_true, if_true]
    rw [if_pos]
    · show ALT_RATE ≠ defaultHandler.SAMPLING_RATE
      simpa [defaultHandler, handlerInit] using hne
  · rw [stop_reaches_save twoSampleState true (by decide) (by decide)]
    have h0 := getD_map_range
      (fun j => adjustRow (stopMinLen twoSampleState)
        ((generate_timestamps twoSampleState.start_time (stopMinLen twoSampleState) ::
          twoSampleState.buffers.drop 1).getD j []))
      (APP_NUM_SENSORS + 1) 0 (by omega)
    simp only [Option.map_some']
    rw [Option.some_inj, h0]
    simp only [List.getD_cons_zero]
    have hstart : twoSampleState.start_time = some (0 : ℚ) := rfl
    rw [hstart]
    have hm : stopMinLen twoSampleState = 2 := by decide
    rw [hm]
    have hlen : (generate_timestamps (some (0 : ℚ)) 2).length = 2 := by
      unfold generate_timestamps
      rw [List.length_map, List.length_range]
    rw [adjustRow_of_eq _ _ hlen]
    unfold generate_timestamps APP_SAMPLING_RATE
    norm_num [List.range_succ]
  · intro hcontra
    rw [Option.some_inj] at hcontra
    have h2 := congrArg (fun l => l.getD 1 0) hcontra
    norm_num [List.range_succ, List.getD_cons_succ, List.getD_cons_zero, ALT_RATE] at h2

/-- Claim C1 (amended: the timestamp row is generated with the app module's
fixed `SAMPLING_RATE = 2000.0` constant, not the handler's negotiated actual
rate): for every stop of an active session that persists data and has
`first_sample_time = t`, row 0 of the persisted matrix is
`t_i = t + i / 2000` for `i < min_len`. -/
theorem C1_timestamps_fixed_rate (st : AppState) (metaOk : Bool) (t : ℚ)
    (hrec : st.is_recording = true) (hmin : 0 < stopMinLen st)
    (hstart : st.start_time = some t) :
    ∃ M, (stop_delsys_recording st true metaOk).persisted = some M ∧
      M.getD 0 [] = (List.range (stopMinLen st)).map fun i : ℕ =>
        t + (i : ℚ) / APP_SAMPLING_RATE := by
  rw [stop_reaches_save st metaOk hrec hmin]
  refine ⟨_, rfl, ?_⟩
  have h0 := getD_map_range
    (fun j => adjustRow (stopMinLen st)
      ((generate_timestamps st.start_time (stopMinLen st) :: st.buffers.drop 1).getD j []))
    (APP_NUM_SENSORS + 1) 0 (by omega)
  rw [h0]
  simp only [List.getD_cons_zero, hstart]
  have hlen : (generate_timestamps (some t) (stopMinLen st)).length = stopMinLen st := by
    unfold generate_timestamps
    rw [List.length_map, List.length_range]
  rw [adjustRow_of_eq _ _ hlen]
  rfl

theorem C1_witness :
    twoSampleState.is_recording = true ∧ 0 < stopMinLen twoSampleState ∧
    twoSampleState.start_time = some 0 ∧
    ∃ M, (stop_delsys_recording twoSampleState true true).persisted = some M ∧
      M.getD 0 [] = (List.range (stopMinLen twoSampleState)).map fun i : ℕ =>
        (0 : ℚ) + (i : ℚ) / APP_SAMPLING_RATE :=
  ⟨by decide, by decide, by decide,
    C1_timestamps_fixed_rate twoSampleState true 0 (by decide) (by decide) (by decide)⟩

/-- Claim C6: starting from the empty buffer a channel is constructed with,
a filtering pass fires exactly when the accumulation buffer has reached the
capacity `A = 75` (equivalently, when the buffered samples plus the incoming
frame reach 75), the array handed to the filter pipeline always holds
exactly 75 samples, and the buffer is empty immediately after the pass. -/
theorem C6_accumulation_drain (frames : List (List ℚ)) (r : StepRec)
    (hr : r ∈ channelTrace 75 frames) :
    (r.handed.isSome = true ↔ 75 ≤ r.before.length + r.frame.length) ∧
    (∀ c, r.handed = some c → c.length = 75 ∧ r.after = []) := by
  have h := channelTraceAux_mem_spec 75 (by omega) frames [] (by simp) r hr
  exact ⟨h.2.1, h.2.2.1⟩

theorem C6_witness :
    (channelStep 75 [] (List.replicate 75 0)) ∈ channelTrace 75 [List.replicate 75 0] ∧
    ((channelStep 75 [] (List.replicate 75 0)).handed.isSome = true ↔
      75 ≤ (channelStep 75 [] (List.replicate 75 0)).before.length +
        (channelStep 75 [] (List.replicate 75 0)).frame.length) ∧
    (∀ c, (channelStep 75 [] (List.replicate 75 0)).handed = some c →
      c.length = 75 ∧ (channelStep 75 [] (List.replicate 75 0)).after = []) := by
  have hmem : (channelStep 75 [] (List.replicate 75 0)) ∈ channelTrace 75 [List.replicate 75 0] :=
    List.mem_singleton.mpr rfl
  exact ⟨hmem, C6_accumulation_drain [List.replicate 75 0] _ hmem⟩

/-- Claim C8: the bounded accumulation deque silently evicts its oldest
samples before the drain check whenever the buffer holds more than
`A - S` samples on a frame arrival (first conjunct: when buffer plus frame
exceed 75, the extension drops exactly the oldest
`q.length + xs.length - 75` buffered samples); consequently over `m`
default-profile drain cycles (three frames of `S = 27` samples each) the
windows handed to the filter pipeline are exactly `raw[81k+6 .. 81k+80]`
(second conjunct) — consecutive processed windows are not contiguous in the
raw stream, and the six evicted samples `raw[81k .. 81k+5]` of each cycle
appear in no handed window. -/
theorem C8_eviction_windows :
    (∀ (q xs : List ℚ), q.length ≤ 75 → xs.length ≤ 75 →
      75 < q.length + xs.length →
      deque_extend 75 q xs = q.drop (q.length + xs.length - 75) ++ xs) ∧
    (∀ (m : ℕ) (raw : List ℚ), raw.length = 81 * m →
      (channelTrace 75 (frames27 raw (3 * m))).filterMap (fun r => r.handed)
        = (List.range m).map fun k => (raw.drop (81 * k + 6)).take 75) := by
  constructor
  · intro q xs hq hxs hover
    rw [deque_extend_eq_drop 75 (by omega) xs q hq,
      List.drop_append_eq_append_drop]
    have h0 : q.length + xs.length - 75 - q.length = 0 := by omega
    rw [h0, List.drop_zero]
  · exact fun m raw h => trace_cycles m raw h

theorem C8_witness :
    (List.replicate 54 (0 : ℚ)).length ≤ 75 ∧
    (List.replicate 27 (0 : ℚ)).length ≤ 75 ∧
    75 < (List.replicate 54 (0 : ℚ)).length + (List.replicate 27 (0 : ℚ)).length ∧
    deque_extend 75 (List.replicate 54 0) (List.replicate 27 0)
      = (List.replicate 54 (0 : ℚ)).drop
          ((List.replicate 54 (0 : ℚ)).length + (List.replicate 27 (0 : ℚ)).length - 75)
        ++ List.replicate 27 0 ∧
    (List.replicate 81 (0 : ℚ)).length = 81 * 1 ∧
    (channelTrace 75 (frames27 (List.replicate 81 0) (3 * 1))).filterMap (fun r => r.handed)
      = (List.range 1).map fun k => ((List.replicate 81 (0 : ℚ)).drop (81 * k + 6)).take 75 := by
  have h1 : (List.replicate 54 (0 : ℚ)).length ≤ 75 := by
    norm_num [List.length_replicate]
  have h2 : (List.replicate 27 (0 : ℚ)).length ≤ 75 := by
    norm_num [List.length_replicate]
  have h3 : 75 < (List.replicate 54 (0 : ℚ)).length + (List.replicate 27 (0 : ℚ)).length := by
    norm_num [List.length_replicate]
  have h4 : (List.replicate 81 (0 : ℚ)).length = 81 * 1 := by
    norm_num [List.length_replicate]
  exact ⟨h1, h2, h3, C8_eviction_windows.1 _ _ h1 h2 h3, h4,
    C8_eviction_windows.2 1 _ h4⟩

/-- Claim C10: for every window the pipeline can process (longer than the
27-sample zero-phase minimum of the band-pass stage — every window the
demuxer hands over has 75 samples), the whole pipeline and each individual
`filtfilt` stage preserve the number of samples, and the output of the
full-wave rectification stage (which is always applied) is non-negative at
every index. -/
theorem C10_filter_length_rectification (fb : FilterBank) (env : Bool)
    (x : List ℚ) (hwf : bankWF fb) (hlen : 27 < x.length) :
    (∃ y, process_emg_channel fb env x = some y ∧ y.length = x.length) ∧
    (∀ (b a s y : List ℚ), filtfiltQ b a s = some y → y.length = s.length) ∧
    (∀ l : List ℚ, (rectify l).length = l.length ∧ ∀ v ∈ rectify l, 0 ≤ v) :=
  ⟨process_emg_spec fb env x hwf hlen,
   fun b a s y h => filtfiltQ_length b a s y h,
   fun l => ⟨rectify_length l, rectify_nonneg l⟩⟩

theorem C10_witness :
    bankWF dummyBank ∧ 27 < (List.replicate 75 (0 : ℚ)).length ∧
    ((∃ y, process_emg_channel dummyBank false (List.replicate 75 0) = some y ∧
        y.length = (List.replicate 75 (0 : ℚ)).length) ∧
      (∀ (b a s y : List ℚ), filtfiltQ b a s = some y → y.length = s.length) ∧
      (∀ l : List ℚ, (rectify l).length = l.length ∧ ∀ v ∈ rectify l, 0 ≤ v)) :=
  ⟨⟨rfl, rfl, rfl, rfl, rfl, rfl, rfl, rfl⟩, by decide,
    C10_filter_length_rectification dummyBank false (List.replicate 75 0)
      ⟨rfl, rfl, rfl, rfl, rfl, rfl, rfl, rfl⟩ (by decide)⟩

/-- Claim C2 counterexample: with the accumulation window configured to 10
(too short for the band-pass stage's zero-phase minimum length
`padlen = 27`), handler construction and rate configuration succeed without
any `FilterPrecondition` error — they are total and perform no such
validation — and the system does proceed to run a filtering pass: the drain
check fires on a 10-sample buffer and hands it to the pipeline, whose
band-pass stage then fails at run time (scipy `ValueError`, swallowed by
the bare `except` of `_process_raw_data`). -/
theorem C2_counterexample :
    (handlerInit 2000 10).ACCUMULATION_SIZE = 10 ∧
    (handlerInit 2000 10).ACCUMULATION_SIZE ≤ padlenOf dummyBank.bp_b dummyBank.bp_a ∧
    (configure_system (handlerInit 2000 10) []).rate_adjusted_bytes = 1728 ∧
    (channelTrace (handlerInit 2000 10).ACCUMULATION_SIZE
        [List.replicate 27 0]).filterMap (fun r => r.handed)
      = [List.replicate 10 0] ∧
    process_emg_channel dummyBank false (List.replicate 10 0) = none := by
  refine ⟨rfl, by decide, by decide, ?_, ?_⟩
  · have hA : (handlerInit 2000 10).ACCUMULATION_SIZE = 10 := rfl
    rw [hA]
    have hext : deque_extend 10 [] (List.replicate 27 (0 : ℚ))
        = List.replicate 10 0 := by
      rw [deque_extend_eq_drop 10 (by omega) _ [] (by simp), List.nil_append]
      rw [List.drop_replicate]
      norm_num
    have hstep : channelStep 10 [] (List.replicate 27 (0 : ℚ))
        = ⟨[], List.replicate 27 0, some (List.replicate 10 0), []⟩ := by
      rw [channelStep_fire]
      · rw [hext]
      · rw [hext]
        simp
    show (channelStep 10 [] (List.replicate 27 (0 : ℚ)) :: []).filterMap
      (fun r => r.handed) = [List.replicate 10 0]
    rw [hstep]
    rfl
  · have h9 : padlenOf dummyBank.hp_b dummyBank.hp_a = 9 := by decide
    have h9n : padlenOf dummyBank.notch_b dummyBank.notch_a = 9 := by decide
    have h27 : padlenOf dummyBank.bp_b dummyBank.bp_a = 27 := by decide
    have hx : (List.replicate 10 (0 : ℚ)).length = 10 := by simp
    have e1 : filtfiltQ dummyBank.hp_b dummyBank.hp_a (List.replicate 10 0)
        = some (filtfiltRun dummyBank.hp_b dummyBank.hp_a (List.replicate 10 0)) :=
      filtfiltQ_of_lt _ _ _ (by omega)
    have l1 : (filtfiltRun dummyBank.hp_b dummyBank.hp_a
        (List.replicate 10 0)).length = 10 := by
      rw [filtfiltRun_length, hx]
    have e2 : filtfiltQ dummyBank.notch_b dummyBank.notch_a
          (filtfiltRun dummyBank.hp_b dummyBank.hp_a (List.replicate 10 0))
        = some (filtfiltRun dummyBank.notch_b dummyBank.notch_a
            (filtfiltRun dummyBank.hp_b dummyBank.hp_a (List.replicate 10 0))) :=
      filtfiltQ_of_lt _ _ _ (by omega)
    have l2 : (filtfiltRun dummyBank.notch_b dummyBank.notch_a
        (filtfiltRun dummyBank.hp_b dummyBank.hp_a (List.replicate 10 0))).length
        = 10 := by
      rw [filtfiltRun_length, l1]
    have e3 : filtfiltQ dummyBank.bp_b dummyBank.bp_a
          (filtfiltRun dummyBank.notch_b dummyBank.notch_a
            (filtfiltRun dummyBank.hp_b dummyBank.hp_a (List.replicate 10 0)))
        = none := by
      unfold filtfiltQ
      rw [if_neg]
      omega
    simp only [process_emg_channel, e1, Option.some_bind, e2, e3, Option.none_bind]

/-- Claim C2 (amended: the source performs no configuration-time validation
of the accumulation-window/filter-order relationship and never raises a
`FilterPrecondition` error — a too-short window still triggers filtering
passes, which fail only at run time inside a swallowed exception; what does
hold is that under the shipped configuration, accumulation window 75,
every window handed to the pipeline satisfies the zero-phase minimum length
27 of every stage, so every triggered pass succeeds): for any coefficient
bank of the designed shapes, every array a drain hands over under the
default window is processed successfully into 75 samples. -/
theorem C2_default_window_safe (fb : FilterBank) (env : Bool)
    (frames : List (List ℚ)) (r : StepRec) (c : List ℚ)
    (hwf : bankWF fb)
    (hr : r ∈ channelTrace defaultHandler.ACCUMULATION_SIZE frames)
    (hc : r.handed = some c) :
    ∃ y, process_emg_channel fb env c = some y ∧ y.length = 75 := by
  have hd : defaultHandler.ACCUMULATION_SIZE = 75 := rfl
  rw [hd] at hr
  have h := channelTraceAux_mem_spec 75 (by omega) frames [] (by simp) r hr
  obtain ⟨hclen, -⟩ := h.2.2.1 c hc
  obtain ⟨y, hy, hylen⟩ := process_emg_spec fb env c hwf (by omega)
  exact ⟨y, hy, by omega⟩

theorem C2_witness :
    bankWF dummyBank ∧
    (channelStep 75 [] (List.replicate 75 0)) ∈
      channelTrace defaultHandler.ACCUMULATION_SIZE [List.replicate 75 0] ∧
    (channelStep 75 [] (List.replicate 75 0)).handed = some (List.replicate 75 0) ∧
    ∃ y, process_emg_channel dummyBank false (List.replicate 75 0) = some y ∧
      y.length = 75 := by
  have hext : deque_extend 75 [] (List.replicate 75 (0 : ℚ))
      = List.replicate 75 0 := by
    rw [deque_extend_of_le 75 (by omega) _ _ (by simp) (by simp), List.nil_append]
  have hstep : channelStep 75 [] (List.replicate 75 (0 : ℚ))
      = ⟨[], List.replicate 75 0, some (List.replicate 75 0), []⟩ := by
    rw [channelStep_fire]
    · rw [hext]
    · rw [hext]
      simp
  have hmem : (channelStep 75 [] (List.replicate 75 0)) ∈
      channelTrace defaultHandler.ACCUMULATION_SIZE [List.replicate 75 0] :=
    List.mem_singleton.mpr rfl
  have hc : (channelStep 75 [] (List.replicate 75 (0 : ℚ))).handed
      = some (List.replicate 75 0) := by
    rw [hstep]
  exact ⟨⟨rfl, rfl, rfl, rfl, rfl, rfl, rfl, rfl⟩, hmem, hc,
    C2_default_window_safe dummyBank false [List.replicate 75 0] _ _
      ⟨rfl, rfl, rfl, rfl, rfl, rfl, rfl, rfl⟩ hmem hc⟩

end Delsys
